import Mathlib

/-!
Verification of the pymap MIME content model and dict backend.

The definitions below are shallow embeddings of the Python sources:
  * `pymap/mime/__init__.py` — `MessageContent`, `MessageHeader`, `MessageBody`
    and their parsing class methods;
  * `pymap/backend/dict/__init__.py` — `Session.login`, `Session.get_password`,
    `Session._load_demo_mailbox`;
  * `pymap/demo/message.py` — `Message.fetch_internal_date`.

Bytes are modelled as natural numbers (values 0..255) and bytestrings as
`List Nat`.  Line triples `(start, end, next_start)` from the Python code are
the structure `MLine`.  Helper functions from `pymap/mime/_util.py` and the
header wrapper from `pymap/mime/parsed.py` are not part of the sources at
hand, so they are modelled from the specification; their doc comments say so.
-/

namespace Pymap

/-- A byte value (0..255). -/
abbrev Byte := Nat

/-- A bytestring, as a list of byte values. -/
abbrev BData := List Byte

/-- A line triple `(start, end, next_start)` as produced by
`MessageContent._find_lines`: `start`/`stop` delimit the line content
(excluding the terminator) and `nextStart` is the offset just past the
terminator. -/
structure MLine where
  start : Nat
  stop : Nat
  nextStart : Nat
deriving DecidableEq, Repr, Inhabited

/-- Byte of `data` at index `i` (0 when out of range; the Python code only
indexes in range). -/
def byteAt (data : BData) (i : Nat) : Byte :=
  data.getD i 0

/-- The contiguous slice `data[start:stop]`. -/
def bslice (data : BData) (start stop : Nat) : BData :=
  (data.drop start).take (stop - start)

/-- Modelled from the spec: the header-folding whitespace set used by
`pymap.mime._util.whitespace` — space and horizontal tab, the bytes that make
a line "whitespace-only" and that begin a folded continuation line. -/
def whitespace : List Byte := [32, 9]

/-- Modelled from the spec: `pymap.mime._util.find_any(data, values, start,
end, expected, False)` — the first index in `[start, stop)` whose byte's
membership in `values` equals `expected` (`none` plays the role of Python's
`-1`).  The parser calls it with `expected = False` to find the first
non-whitespace byte of a line. -/
def find_any (data : BData) (values : List Byte) (start stop : Nat)
    (expected : Bool) : Option Nat :=
  (List.range' start (stop - start)).find?
    (fun i => (values.contains (byteAt data i)) == expected)

/-- `data.find(b, start, len(data))`: index of the first occurrence of byte
`b` at or after `start`. -/
def findByteFrom (data : BData) (b : Byte) (start : Nat) : Option Nat :=
  (List.range' start (data.length - start)).find? (fun i => byteAt data i == b)

theorem findByteFrom_bounds {data : BData} {b : Byte} {start idx : Nat}
    (h : findByteFrom data b start = some idx) :
    start ≤ idx ∧ idx < data.length := by
  have hmem := List.mem_of_find?_eq_some h
  have := List.mem_range'_1.mp hmem
  omega

/-- The loop of `MessageContent._find_lines`, scanning from offset `start`:
find the next LF; the line ends there (minus a preceding CR, when the CR is
at or after `start`); a trailing segment without LF forms the final line with
`nextStart = stop = len(data)`.  The `fuel` argument only bounds the number
of iterations; each iteration advances `start` past the LF it found, so the
`data.length + 1` fuel that `find_lines` passes always suffices. -/
def find_lines_go (data : BData) : Nat → Nat → List MLine
  | _, 0 => []
  | start, fuel + 1 =>
      match findByteFrom data 10 start with
      | none => [⟨start, data.length, data.length⟩]
      | some idx =>
          let stop := if start + 1 ≤ idx ∧ byteAt data (idx - 1) = 13
            then idx - 1 else idx
          ⟨start, stop, idx + 1⟩ :: find_lines_go data (idx + 1) fuel

/-- `MessageContent._find_lines(data)`. -/
def find_lines (data : BData) : List MLine :=
  find_lines_go data 0 (data.length + 1)

/-- A line is "blank" (empty or whitespace-only) exactly when
`find_any(data, whitespace, start, end, False, False)` finds no
non-whitespace byte in it; this is the condition `ws_end < 0` of
`MessageContent._split_lines`. -/
def lineIsBlank (data : BData) (l : MLine) : Bool :=
  (find_any data whitespace l.start l.stop false).isNone

/-- Index of the first blank line, mirroring the `enumerate` loop of
`MessageContent._split_lines`. -/
def firstBlankIdx (data : BData) : List MLine → Option Nat
  | [] => none
  | l :: rest =>
      if lineIsBlank data l then some 0
      else (firstBlankIdx data rest).map (· + 1)

/-- `MessageContent._split_lines(data, lines)`: at the first blank line (index
`i`) return `(lines[0:i+1], lines[i+1:])`; when no line is blank return
`([], lines)`. -/
def split_lines (data : BData) (lines : List MLine) :
    List MLine × List MLine :=
  match firstBlankIdx data lines with
  | some i => (lines.take (i + 1), lines.drop (i + 1))
  | none => ([], lines)

/-- The `next_start` offset of the last line (`lines[-1][2]` with `l` in
front). -/
def lastNext (l : MLine) : List MLine → Nat
  | [] => l.nextStart
  | x :: xs => lastNext x xs

/-- Modelled from the spec: `pymap.mime._util.get_raw(data, *line_groups)` —
the raw byte view covering the given line groups: the contiguous slice of
`data` from the start of the first line to the next-line offset of the last
line (an empty view when there are no lines).  This matches the spec's "raw
byte view (shared, never copied)" and the repository's own fetch tests, where
the header buffer of a 158-octet message is 108 octets — the header lines
plus the terminating blank line and its CRLF — and the body buffer is the
remaining 50 octets. -/
def get_raw (data : BData) (groups : List (List MLine)) : BData :=
  match groups.flatten with
  | [] => []
  | l :: rest => bslice data l.start (lastNext l rest)

/-- First index of a colon (byte 58) in `data[start:stop]`, i.e.
`data.find(b':', start, end)` in `MessageHeader._parse_headers`. -/
def findColon (data : BData) (start stop : Nat) : Option Nat :=
  (List.range' start (stop - start)).find? (fun i => byteAt data i == 58)

/-- Python's `bytes.strip()` whitespace set. -/
def pyStripSet : List Byte := [32, 9, 10, 13, 11, 12]

/-- `bytes.strip()`: remove leading and trailing ASCII whitespace. -/
def pyStrip (bs : BData) : BData :=
  ((bs.dropWhile (pyStripSet.contains ·)).reverse.dropWhile
    (pyStripSet.contains ·)).reverse

/-- `bytes.lower()`: lowercase ASCII letters, byte-wise. -/
def pyLower (bs : BData) : BData :=
  bs.map (fun b => if 65 ≤ b ∧ b ≤ 90 then b + 32 else b)

/-- The test `length >= 1 and data[start] in whitespace` of
`MessageHeader._find_folds`: the line is nonempty and begins with a
whitespace byte, so it continues the previous folded header. -/
def ws_start (data : BData) (l : MLine) : Bool :=
  decide (1 ≤ l.stop - l.start) && whitespace.contains (byteAt data l.start)

/-- `ret[-1].append(line)`: append `l` to the last group of `acc` (identity
on an empty list; the code guards with `if ret:`). -/
def appendToLast : List (List MLine) → MLine → List (List MLine)
  | [], _ => []
  | [g], l => [g ++ [l]]
  | g :: gs, l => g :: appendToLast gs l

/-- The loop of `MessageHeader._find_folds`: a whitespace-starting line is
appended to the last group when one exists (and dropped otherwise); any other
line starts a new group. -/
def find_folds_go (data : BData) : List MLine → List (List MLine) →
    List (List MLine)
  | [], acc => acc
  | l :: rest, acc =>
      if ws_start data l then find_folds_go data rest (appendToLast acc l)
      else find_folds_go data rest (acc ++ [[l]])

/-- `MessageHeader._find_folds(data, lines)`: group all lines but the last
(`islice(lines, len(lines) - 1)`) into folded logical headers; an empty line
list yields no groups. -/
def find_folds (data : BData) (lines : List MLine) : List (List MLine) :=
  match lines with
  | [] => []
  | _ => find_folds_go data (lines.take (lines.length - 1)) []

/-- The on-demand header index built by `MessageHeader._parse_headers`: an
insertion-ordered mapping from lowercased header name to the list of its
value groups, each group being the list of line views of one folded header. -/
abbrev HeadersIdx := List (BData × List (List BData))

/-- `headers.setdefault(name, []).append(value)`: append `v` to the entry for
`name`, creating the entry at the end when absent. -/
def addHeaderValue : HeadersIdx → BData → List BData → HeadersIdx
  | [], name, v => [(name, [v])]
  | (n, vs) :: rest, name, v =>
      if n = name then (n, vs ++ [v]) :: rest
      else (n, vs) :: addHeaderValue rest name v

/-- The folded-header list: pairs of lowercased name and raw header value. -/
abbrev FoldedHeaders := List (BData × BData)

/-- The loop of `MessageHeader._parse_headers`: for each group, find the
colon on its first line (discarding the group when there is none), lowercase
and strip the name, record the group's line views in the index and the pair
`(name, get_raw(data, group))` in the folded list.  (Groups produced by
`_find_folds` are never empty; an empty group is skipped.) -/
def parse_headers_go (data : BData) : List (List MLine) → FoldedHeaders →
    HeadersIdx → FoldedHeaders × HeadersIdx
  | [], folded, headers => (folded, headers)
  | g :: rest, folded, headers =>
      match g with
      | [] => parse_headers_go data rest folded headers
      | first :: _ =>
          match findColon data first.start first.stop with
          | none => parse_headers_go data rest folded headers
          | some colon =>
              let name := pyLower (pyStrip (bslice data first.start colon))
              let value := g.map (fun l => bslice data l.start l.stop)
              parse_headers_go data rest
                (folded ++ [(name, get_raw data [g])])
                (addHeaderValue headers name value)

/-- `MessageHeader._parse_headers(data, folds)`. -/
def parse_headers (data : BData) (folds : List (List MLine)) :
    FoldedHeaders × HeadersIdx :=
  parse_headers_go data folds [] []

/-- `MessageHeader`: raw buffer, line count, folded header list, parsed
header index. -/
structure MessageHeader where
  raw : BData
  lines : Nat
  folded : FoldedHeaders
  parsed : HeadersIdx
deriving DecidableEq, Repr, Inhabited

/-- `MessageHeader._parse(data, lines)`. -/
def MessageHeader.parseFrom (data : BData) (lines : List MLine) :
    MessageHeader :=
  let folds := find_folds data lines
  let fp := parse_headers data folds
  ⟨get_raw data [lines], lines.length, fp.1, fp.2⟩

/-- A parsed `Content-Type` header value: maintype, subtype and parameters,
as exposed by the `ContentTypeHeader` objects the parser dispatches on. -/
structure ContentTypeHeader where
  maintype : String
  subtype : String
  params : List (String × String)
deriving DecidableEq, Repr, Inhabited

/-- `_default_type`: the `text/plain` content type used when the header is
absent or unparseable. -/
def default_type : ContentTypeHeader := ⟨"text", "plain", []⟩

/-- `MessageBody._get_boundary(content_type)`: the `boundary` parameter when
present, non-empty and ASCII-encodable; `None` otherwise. -/
def get_boundary (ct : ContentTypeHeader) : Option BData :=
  match ct.params.find? (fun p => p.1 == "boundary") with
  | none => none
  | some p =>
      if p.2 ≠ "" then
        if p.2.toList.all (fun c => c.toNat ≤ 127) then
          some (p.2.toList.map Char.toNat)
        else none
      else none

/-- Decode an ASCII byte list into a string. -/
def bytesToString (bs : BData) : String :=
  String.mk (bs.map Char.ofNat)

/-- Modelled from the spec: one `key=value` parameter of a Content-Type
value, as produced by `pymap.mime.parsed.ParsedHeaders` via the email policy
("Read `Content-Type`" step): key lowercased and stripped, value stripped and
unquoted. -/
def parseCTParam (seg : BData) : Option (String × String) :=
  let k := seg.takeWhile (fun b => !(b == 61))
  let r := seg.dropWhile (fun b => !(b == 61))
  match r with
  | [] => none
  | _ :: v0 =>
      let v := pyStrip v0
      let v := if 2 ≤ v.length ∧ v.headD 0 = 34 ∧ v.getLastD 0 = 34
        then (v.drop 1).dropLast else v
      some (bytesToString (pyLower (pyStrip k)), bytesToString v)

/-- Modelled from the spec: parsing the value of a `Content-Type` header into
maintype, subtype and parameters — "Read `Content-Type`; default to
`text/plain` when absent or unparseable": `none` signals an unparseable
value. -/
def parseCTValue (v : BData) : Option ContentTypeHeader :=
  match List.splitOn 59 v with
  | [] => none
  | seg0 :: rest =>
      match List.splitOn 47 (pyStrip seg0) with
      | [m, s] =>
          if m ≠ [] ∧ s ≠ [] then
            some ⟨bytesToString (pyLower m), bytesToString (pyLower (pyStrip s)),
              rest.filterMap parseCTParam⟩
          else none
      | _ => none

/-- The lowercased header name `content-type`, as bytes. -/
def contentTypeName : BData := [99, 111, 110, 116, 101, 110, 116, 45, 116, 121, 112, 101]

/-- Modelled from the spec: `ParsedHeaders.content_type` — look up the first
`content-type` value group in the header index, drop the name and colon, and
parse the remainder; `none` when the header is absent or unparseable. -/
def headerContentType (hs : HeadersIdx) : Option ContentTypeHeader :=
  match hs.find? (fun e => e.1 == contentTypeName) with
  | none => none
  | some e =>
      match e.2 with
      | [] => none
      | g :: _ =>
          parseCTValue ((g.flatten.dropWhile (fun b => !(b == 58))).drop 1)

mutual
/-- `MessageContent`: raw view, line count, header and body. -/
inductive MessageContent where
  | mk (raw : BData) (lines : Nat) (header : MessageHeader)
      (body : MessageBody)

/-- `MessageBody` and its three concrete classes `_SinglepartBody`,
`_MultipartBody` and `_RFC822Body`, as a sum. -/
inductive MessageBody where
  | singlepart (raw : BData) (lines : Nat) (contentType : ContentTypeHeader)
  | multipart (raw : BData) (lines : Nat) (contentType : ContentTypeHeader)
      (parts : List MessageContent)
  | rfc822 (raw : BData) (lines : Nat) (contentType : ContentTypeHeader)
      (sub : MessageContent)
end

/-- `MessageContent.raw`. -/
def MessageContent.raw : MessageContent → BData
  | .mk r _ _ _ => r

/-- `MessageContent.lines`. -/
def MessageContent.lines : MessageContent → Nat
  | .mk _ n _ _ => n

/-- `MessageContent.header`. -/
def MessageContent.header : MessageContent → MessageHeader
  | .mk _ _ h _ => h

/-- `MessageContent.body`. -/
def MessageContent.body : MessageContent → MessageBody
  | .mk _ _ _ b => b

/-- `MessageBody.raw`. -/
def MessageBody.raw : MessageBody → BData
  | .singlepart r _ _ => r
  | .multipart r _ _ _ => r
  | .rfc822 r _ _ _ => r

/-- `MessageBody.lines`. -/
def MessageBody.lines : MessageBody → Nat
  | .singlepart _ n _ => n
  | .multipart _ n _ _ => n
  | .rfc822 _ n _ _ => n

/-- `MessageBody.content_type`. -/
def MessageBody.content_type : MessageBody → ContentTypeHeader
  | .singlepart _ _ ct => ct
  | .multipart _ _ ct _ => ct
  | .rfc822 _ _ ct _ => ct

/-- `MessageBody.has_nested`: `True` exactly for the multipart and rfc822
bodies. -/
def MessageBody.has_nested : MessageBody → Bool
  | .singlepart .. => false
  | .multipart .. => true
  | .rfc822 .. => true

/-- `MessageBody.nested`: the sub-part list — empty for singlepart, the part
list for multipart, the one-element list `[subpart]` for rfc822. -/
def MessageBody.nested : MessageBody → List MessageContent
  | .singlepart .. => []
  | .multipart _ _ _ ps => ps
  | .rfc822 _ _ _ s => [s]

/-- The line content view `view[start:end]` compared against boundary
markers in `_MultipartBody._find_parts`. -/
def lineView (data : BData) (l : MLine) : BData :=
  bslice data l.start l.stop

/-- The `stop_match` test: the line equals `--boundary--`. -/
def isStopLine (data : BData) (boundary : BData) (l : MLine) : Bool :=
  lineView data l == [45, 45] ++ boundary ++ [45, 45]

/-- The `part_match` test: the line equals `--boundary`. -/
def isPartLine (data : BData) (boundary : BData) (l : MLine) : Bool :=
  lineView data l == [45, 45] ++ boundary

/-- The loop of `_MultipartBody._find_parts`: a `--boundary--` line stops the
scan, a `--boundary` line opens a new (empty) part, any other line is
appended to the current part when one is open and discarded otherwise. -/
def find_parts_go (data : BData) (boundary : BData) :
    List MLine → List (List MLine) → List (List MLine)
  | [], acc => acc
  | l :: rest, acc =>
      if isStopLine data boundary l then acc
      else if isPartLine data boundary l then
        find_parts_go data boundary rest (acc ++ [[]])
      else find_parts_go data boundary rest (appendToLast acc l)

/-- `_MultipartBody._find_parts(data, lines, boundary)`. -/
def find_parts (data : BData) (lines : List MLine) (boundary : BData) :
    List (List MLine) :=
  find_parts_go data boundary lines []

mutual
/-- `MessageContent._parse(data, lines)`: split lines at the first blank
line, parse the header, read its Content-Type and parse the body with it.
The `fuel` argument only bounds the recursion depth of the embedding (the
Python recursion bottoms out because every nested part spans strictly fewer
lines); `parse` below supplies ample fuel, and the fuel-exhaustion fallbacks
keep the raw view and line count of the lines they were given, which is also
what the recursive branches compute. -/
def parseContent : Nat → BData → List MLine → MessageContent
  | 0, data, lines =>
      .mk (get_raw data [lines]) (lines.length - 1) ⟨[], 0, [], []⟩
        (.singlepart (get_raw data [lines]) lines.length default_type)
  | fuel + 1, data, lines =>
      let hb := split_lines data lines
      let header := MessageHeader.parseFrom data hb.1
      let ct := headerContentType header.parsed
      let body := parseBody fuel data hb.2 ct
      .mk (get_raw data [hb.1, hb.2]) (lines.length - 1) header body

/-- `MessageBody._parse(data, lines, content_type)`: default the content type
to `text/plain`; `multipart` with a valid boundary parses as multipart,
`message/rfc822` as rfc822, everything else (including multipart without a
valid boundary) as singlepart. -/
def parseBody : Nat → BData → List MLine → Option ContentTypeHeader →
    MessageBody
  | 0, data, lines, contentType =>
      .singlepart (get_raw data [lines]) lines.length
        (contentType.getD default_type)
  | fuel + 1, data, lines, contentType =>
      let ct := contentType.getD default_type
      if ct.maintype = "multipart" then
        match get_boundary ct with
        | some boundary => parseMultipartBody fuel data lines ct boundary
        | none => .singlepart (get_raw data [lines]) lines.length ct
      else if ct.maintype = "message" ∧ ct.subtype = "rfc822" then
        parseRFC822Body fuel data lines ct
      else
        .singlepart (get_raw data [lines]) lines.length ct

/-- `_MultipartBody._parse_body(data, lines, content_type, boundary)`: find
the part line groups and parse each as a nested `MessageContent`. -/
def parseMultipartBody : Nat → BData → List MLine → ContentTypeHeader →
    BData → MessageBody
  | 0, data, lines, ct, _ =>
      .multipart (get_raw data [lines]) lines.length ct []
  | fuel + 1, data, lines, ct, boundary =>
      .multipart (get_raw data [lines]) lines.length ct
        ((find_parts data lines boundary).map
          (fun p => parseContent fuel data p))

/-- `_RFC822Body._parse_body(data, lines, content_type)`: the whole body is
one recursively parsed sub-content; the body raw and line count are the
sub-content raw and line count. -/
def parseRFC822Body : Nat → BData → List MLine → ContentTypeHeader →
    MessageBody
  | 0, data, lines, ct =>
      .rfc822 (get_raw data [lines]) (lines.length - 1) ct
        (.mk (get_raw data [lines]) (lines.length - 1) ⟨[], 0, [], []⟩
          (.singlepart (get_raw data [lines]) lines.length default_type))
  | fuel + 1, data, lines, ct =>
      let sub := parseContent fuel data lines
      .rfc822 sub.raw sub.lines ct sub
end

/-- `MessageContent.parse(data)`: find the lines and parse, with enough fuel
for any nesting depth reachable from `data`. -/
def MessageContent.parse (data : BData) : MessageContent :=
  parseContent (4 * (data.length + 2)) data (find_lines data)

mutual
/-- `MessageContent.walk()`: the content itself, then (for nested bodies)
each sub-part's walk in order — materialized as a list. -/
def walk (c : MessageContent) : List MessageContent :=
  match c with
  | .mk r n h b => .mk r n h b :: walkBody b

/-- The sub-part contribution of `walk`: nothing for a singlepart body, the
concatenated walks of the nested parts otherwise. -/
def walkBody : MessageBody → List MessageContent
  | .singlepart .. => []
  | .multipart _ _ _ ps => walkList ps
  | .rfc822 _ _ _ s => walk s

/-- `chain(*(part.walk() for part in parts))`. -/
def walkList : List MessageContent → List MessageContent
  | [] => []
  | c :: cs => walk c ++ walkList cs
end

mutual
/-- The number of nodes of a content tree — the count `walk` must visit. -/
def nodeCount (c : MessageContent) : Nat :=
  match c with
  | .mk _ _ _ b => 1 + nodeCountBody b

/-- Node count of the sub-parts of a body. -/
def nodeCountBody : MessageBody → Nat
  | .singlepart .. => 0
  | .multipart _ _ _ ps => nodeCountList ps
  | .rfc822 _ _ _ s => nodeCount s

/-- Node count of a list of contents. -/
def nodeCountList : List MessageContent → Nat
  | [] => 0
  | c :: cs => nodeCount c + nodeCountList cs
end

/-- `readline()` on a byte stream positioned at `bs`: the first line
(including its LF, when present) and the remaining bytes. -/
def readline (bs : BData) : BData × BData :=
  let pre := bs.takeWhile (fun b => !(b == 10))
  match bs.dropWhile (fun b => !(b == 10)) with
  | [] => (pre, [])
  | nl :: tail => (pre ++ [nl], tail)

/-- An ASCII decimal digit byte. -/
def isDigitByte (b : Byte) : Bool :=
  decide (48 ≤ b ∧ b ≤ 57)

/-- Value of a list of decimal digit bytes. -/
def digitsVal (ds : BData) : Nat :=
  ds.foldl (fun a b => a * 10 + (b - 48)) 0

/-- Modelled from the spec: `float()` applied to the epoch line — "the second
line is a numeric Unix epoch".  Parses an optionally signed decimal numeral
with an optional fractional part, ignoring surrounding whitespace; `none`
models a parse failure (a `ValueError` in the loader).  The result `(m, e)`
represents the number `m / 10^e`. -/
def parseEpoch (bs : BData) : Option (Int × Nat) :=
  let s0 := pyStrip bs
  let sign : Int := if s0.headD 0 = 45 then -1 else 1
  let s := if s0.headD 0 = 45 ∨ s0.headD 0 = 43 then s0.drop 1 else s0
  let ip := s.takeWhile isDigitByte
  match s.drop ip.length with
  | [] => if ip ≠ [] then some (sign * digitsVal ip, 0) else none
  | 46 :: fr =>
      let fp := fr.takeWhile isDigitByte
      if fr.drop fp.length = [] ∧ (ip ≠ [] ∨ fp ≠ []) then
        some (sign * (digitsVal ip * 10 ^ fp.length + digitsVal fp), fp.length)
      else none
  | _ => none

/-- Modelled from the spec: `datetime.fromtimestamp(ts, timezone.utc)` — a
UTC datetime, identified by its Unix epoch value `epochNum / 10^epochScale`. -/
structure UTCDateTime where
  epochNum : Int
  epochScale : Nat
deriving DecidableEq, Repr

/-- Modelled from the spec: `pymap.parsing.specials.flag.Flag` — a flag
token, identified by its bytes. -/
abbrev MsgFlag := BData

/-- The `\Recent` system flag token. -/
def Recent : MsgFlag := [92, 82, 101, 99, 101, 110, 116]

/-- `bytes.split()`: split on whitespace runs, discarding empty pieces. -/
def pySplit (bs : BData) : List BData :=
  (bs.splitOnP (pyStripSet.contains ·)).filter (· ≠ [])

/-- One file of a demo mailbox directory: its name and its bytes. -/
structure DemoFile where
  name : String
  content : BData

/-- A message loaded by `Session._load_demo_mailbox`: the flag set and
internal date passed to `Message.parse`, the remaining message bytes, and the
`recent` argument passed to `mbx.add`. -/
structure LoadedMessage where
  flags : Finset MsgFlag
  internalDate : UTCDateTime
  msgData : BData
  recent : Bool
deriving DecidableEq

/-- The per-message part of `Session._load_demo_mailbox`: read the flag line
and the epoch line, parse the epoch, split the flag line into a flag set, and
pull `\Recent` out of the set into the `recent` argument.  `none` models the
exception a non-numeric epoch line raises. -/
def loadDemoFile (f : DemoFile) : Option LoadedMessage :=
  let r1 := readline f.content
  let r2 := readline r1.2
  match parseEpoch r2.1 with
  | none => none
  | some ts =>
      let flags := (pySplit r1.1).toFinset
      if Recent ∈ flags then
        some ⟨flags.erase Recent, ⟨ts.1, ts.2⟩, r2.2, true⟩
      else
        some ⟨flags, ⟨ts.1, ts.2⟩, r2.2, false⟩

/-- The mailbox state `_load_demo_mailbox` mutates: the `_readonly` bit and
the messages added so far (modelled from the spec for the missing
`mailbox.py`: `mbx.add(msg, recent)` appends the message). -/
structure DemoMailbox where
  readonly : Bool
  messages : List LoadedMessage
deriving DecidableEq

/-- `name.startswith('.')`: the file name begins with a dot. -/
def startsWithDot (s : String) : Bool :=
  match s.toList with
  | [] => false
  | c :: _ => c == '.'

/-- The loop of `Session._load_demo_mailbox` over the (sorted) file names: a
file named `.readonly` sets the readonly bit, any other dotfile is skipped,
and every remaining file is loaded as a message and added to the mailbox. -/
def loadDemoMailbox_go : List DemoFile → DemoMailbox → Option DemoMailbox
  | [], mbx => some mbx
  | f :: fs, mbx =>
      if f.name = ".readonly" then
        loadDemoMailbox_go fs { mbx with readonly := true }
      else if startsWithDot f.name then
        loadDemoMailbox_go fs mbx
      else
        match loadDemoFile f with
        | none => none
        | some m =>
            loadDemoMailbox_go fs { mbx with messages := mbx.messages ++ [m] }

/-- `Session._load_demo_mailbox(name, mbx)`: iterate over the files in sorted
name order. -/
def loadDemoMailbox (files : List DemoFile) (mbx : DemoMailbox) :
    Option DemoMailbox :=
  loadDemoMailbox_go (files.mergeSort (fun a b => a.name ≤ b.name)) mbx

/-- Modelled from the spec: a pysasl `AuthenticationCredentials` object — the
authentication id and the secret check against an expected password. -/
structure Credentials where
  authcid : String
  checkSecret : String → Bool

/-- The dict backend `Config` fields relevant to login. -/
structure DictConfig where
  demo_user : String
  demo_password : String

/-- The `InvalidAuth` exception. -/
inductive LoginError where
  | invalidAuth
deriving DecidableEq, Repr

/-- The session object `Session.login` returns on success (the shared
mailbox-set cache lives in the missing `mailbox.py` and does not affect the
authentication outcome). -/
structure DictSession where
  user : String
deriving DecidableEq, Repr

/-- `Session.get_password(config, user)`: the demo password when `user` is
the demo user, `InvalidAuth` otherwise. -/
def get_password (config : DictConfig) (user : String) :
    Except LoginError String :=
  if user = config.demo_user then .ok config.demo_password
  else .error .invalidAuth

/-- `Session.login(credentials, config)`: look up the expected password for
`credentials.authcid`; raise `InvalidAuth` when the lookup fails, when the
password is falsy (empty), or when the secret check fails; otherwise return a
session. -/
def login (credentials : Credentials) (config : DictConfig) :
    Except LoginError DictSession :=
  match get_password config credentials.authcid with
  | .error e => .error e
  | .ok password =>
      if password = "" ∨ ¬ credentials.checkSecret password then
        .error .invalidAuth
      else .ok ⟨credentials.authcid⟩

/-- `pymap.demo.message.Message`: sequence number, uid, flag list, and the
message bytes (`email.message_from_bytes` keeps exactly the information in
the bytes). -/
structure DemoMessage where
  seq : Nat
  uid : Nat
  flags : List BData
  msgData : BData
deriving DecidableEq, Repr

/-- `Message.fetch_internal_date()`: returns `datetime.now(timezone.utc)`.
The wall clock is modelled as the explicit argument `now`; the method returns
it and reads nothing from the message. -/
def fetch_internal_date (_msg : DemoMessage) (now : UTCDateTime) :
    UTCDateTime :=
  now

/-! ## The header/body split (claims C1, C2) -/

theorem firstBlankIdx_none_iff (data : BData) (ls : List MLine) :
    firstBlankIdx data ls = none ↔ ∀ l ∈ ls, lineIsBlank data l = false := by
  induction ls with
  | nil => simp [firstBlankIdx]
  | cons l rest ih =>
      rcases h : lineIsBlank data l with _ | _
      · simp [firstBlankIdx, h, ih]
      · simp [firstBlankIdx, h]

theorem firstBlankIdx_some_spec (data : BData) (ls : List MLine) :
    ∀ i, firstBlankIdx data ls = some i →
      i < ls.length ∧ lineIsBlank data (ls.getD i default) = true ∧
        ∀ j, j < i → lineIsBlank data (ls.getD j default) = false := by
  induction ls with
  | nil => intro i h; simp [firstBlankIdx] at h
  | cons l rest ih =>
      intro i h
      rcases hb : lineIsBlank data l with _ | _
      · rw [firstBlankIdx] at h
        simp only [hb, Bool.false_eq_true, if_false] at h
        rcases Option.map_eq_some'.mp h with ⟨i', hi', rfl⟩
        obtain ⟨h1, h2, h3⟩ := ih i' hi'
        refine ⟨by simpa using h1, by simpa using h2, ?_⟩
        intro j hj
        cases j with
        | zero => simpa using hb
        | succ j' => simpa using h3 j' (by omega)
      · rw [firstBlankIdx] at h
        simp only [hb, if_true] at h
        cases h
        refine ⟨by simp, by simpa using hb, ?_⟩
        intro j hj
        omega

theorem firstBlankIdx_eq_some (data : BData) (ls : List MLine) :
    ∀ i, i < ls.length → lineIsBlank data (ls.getD i default) = true →
      (∀ j, j < i → lineIsBlank data (ls.getD j default) = false) →
      firstBlankIdx data ls = some i := by
  induction ls with
  | nil => intro i hi; simp at hi
  | cons l rest ih =>
      intro i hi hblank hprev
      cases i with
      | zero =>
          rw [firstBlankIdx]
          simp only [List.getD_cons_zero] at hblank
          simp [hblank]
      | succ i' =>
          have h0 : lineIsBlank data l = false := by
            simpa using hprev 0 (by omega)
          rw [firstBlankIdx]
          simp only [h0, Bool.false_eq_true, if_false]
          rw [ih i' (by simpa using hi) (by simpa using hblank)
            (fun j hj => by simpa using hprev (j + 1) (by omega))]
          rfl

theorem split_lines_no_blank (data : BData) (lines : List MLine)
    (h : ∀ l ∈ lines, lineIsBlank data l = false) :
    split_lines data lines = ([], lines) := by
  rw [split_lines, (firstBlankIdx_none_iff data lines).mpr h]

theorem split_lines_append (data : BData) (lines : List MLine) :
    (split_lines data lines).1 ++ (split_lines data lines).2 = lines := by
  rcases h : firstBlankIdx data lines with _ | i <;>
    simp [split_lines, h, List.take_append_drop]

/-- C1: `parse` splits the scanned lines so that the first empty or
whitespace-only line terminates the headers (that line belonging to the
header region), all subsequent lines form the body, and when no such line
exists the header region is empty and every line belongs to the body. -/
theorem split_first_blank_line (data : BData) :
    (split_lines data (find_lines data)).1 ++
        (split_lines data (find_lines data)).2 = find_lines data ∧
    ((∀ l ∈ find_lines data, lineIsBlank data l = false) →
      split_lines data (find_lines data) = ([], find_lines data)) ∧
    ∀ i, i < (find_lines data).length →
      lineIsBlank data ((find_lines data).getD i default) = true →
      (∀ j, j < i →
        lineIsBlank data ((find_lines data).getD j default) = false) →
      split_lines data (find_lines data) =
        ((find_lines data).take (i + 1), (find_lines data).drop (i + 1)) := by
  refine ⟨split_lines_append data _, ?_, ?_⟩
  · exact split_lines_no_blank data _
  · intro i hi hb hp
    rw [split_lines, firstBlankIdx_eq_some data _ i hi hb hp]

/-- Witness for C1, at the message `"A\n\nb"`: the blank line has index 1,
the header region is the first two lines and the body the rest. -/
theorem split_first_blank_line_witness :
    split_lines [65, 10, 10, 98] (find_lines [65, 10, 10, 98]) =
      ((find_lines [65, 10, 10, 98]).take 2,
        (find_lines [65, 10, 10, 98]).drop 2) :=
  (split_first_blank_line [65, 10, 10, 98]).2.2 1 (by decide) (by decide)
    (by decide)

/-- C2 counterexample: for the blank-line-free input `"abc"` the parser
leaves the header region empty and places every line in the body — not the
other way around, as the claim states. -/
theorem no_blank_line_cex :
    (∀ l ∈ find_lines [97, 98, 99],
      lineIsBlank [97, 98, 99] l = false) ∧
    split_lines [97, 98, 99] (find_lines [97, 98, 99]) =
      ([], find_lines [97, 98, 99]) ∧
    find_lines [97, 98, 99] ≠ [] ∧
    (MessageContent.parse [97, 98, 99]).header.raw = [] ∧
    (MessageContent.parse [97, 98, 99]).body.raw = [97, 98, 99] := by
  decide

/-! ## Raw views of parse results -/

theorem get_raw_congr (data : BData) {groups groups' : List (List MLine)}
    (h : groups.flatten = groups'.flatten) :
    get_raw data groups = get_raw data groups' := by
  unfold get_raw
  rw [h]

theorem parseContent_succ (fuel : Nat) (data : BData) (lines : List MLine) :
    parseContent (fuel + 1) data lines =
      .mk (get_raw data
            [(split_lines data lines).1, (split_lines data lines).2])
        (lines.length - 1)
        (MessageHeader.parseFrom data (split_lines data lines).1)
        (parseBody fuel data (split_lines data lines).2
          (headerContentType
            (MessageHeader.parseFrom data (split_lines data lines).1).parsed))
    := rfl

theorem parse_as_succ (data : BData) :
    MessageContent.parse data =
      parseContent (4 * (data.length + 2) - 1 + 1) data (find_lines data) := by
  have h : 4 * (data.length + 2) - 1 + 1 = 4 * (data.length + 2) := by omega
  rw [MessageContent.parse, h]

theorem parseFrom_raw (data : BData) (lines : List MLine) :
    (MessageHeader.parseFrom data lines).raw = get_raw data [lines] := rfl

theorem parseContent_raw (fuel : Nat) (data : BData) (lines : List MLine) :
    (parseContent fuel data lines).raw = get_raw data [lines] := by
  cases fuel with
  | zero => rfl
  | succ f =>
      rw [parseContent_succ]
      show get_raw data
        [(split_lines data lines).1, (split_lines data lines).2] = _
      exact get_raw_congr data (by simp [split_lines_append])

theorem parseContent_lines (fuel : Nat) (data : BData) (lines : List MLine) :
    (parseContent fuel data lines).lines = lines.length - 1 := by
  cases fuel with
  | zero => rfl
  | succ f => rw [parseContent_succ]; rfl

theorem parseMultipartBody_raw (fuel : Nat) (data : BData)
    (lines : List MLine) (ct : ContentTypeHeader) (boundary : BData) :
    (parseMultipartBody fuel data lines ct boundary).raw =
      get_raw data [lines] := by
  cases fuel <;> rfl

theorem parseRFC822Body_raw (fuel : Nat) (data : BData) (lines : List MLine)
    (ct : ContentTypeHeader) :
    (parseRFC822Body fuel data lines ct).raw = get_raw data [lines] := by
  cases fuel with
  | zero => rfl
  | succ f =>
      show (parseContent f data lines).raw = _
      exact parseContent_raw f data lines

theorem parseBody_raw (fuel : Nat) (data : BData) (lines : List MLine)
    (contentType : Option ContentTypeHeader) :
    (parseBody fuel data lines contentType).raw = get_raw data [lines] := by
  cases fuel with
  | zero => rfl
  | succ f =>
      rw [parseBody]
      rcases contentType.getD default_type with ⟨m, s, ps⟩
      dsimp only
      split
      · split
        · exact parseMultipartBody_raw f data lines _ _
        · rfl
      · split
        · exact parseRFC822Body_raw f data lines _
        · rfl

/-- C2 (amended): for every input bytestring whose lines contain no blank
(empty or whitespace-only) line, `parse` treats all lines as body and
produces an empty header region. -/
theorem no_blank_line_all_body (data : BData)
    (h : ∀ l ∈ find_lines data, lineIsBlank data l = false) :
    split_lines data (find_lines data) = ([], find_lines data) ∧
    (MessageContent.parse data).header.raw = [] ∧
    (MessageContent.parse data).body.raw = get_raw data [find_lines data] := by
  have hsplit := split_lines_no_blank data (find_lines data) h
  refine ⟨hsplit, ?_, ?_⟩
  · rw [parse_as_succ, parseContent_succ]
    show (MessageHeader.parseFrom data (split_lines data (find_lines data)).1).raw = []
    rw [parseFrom_raw, hsplit]
    rfl
  · rw [parse_as_succ, parseContent_succ]
    show (parseBody _ data (split_lines data (find_lines data)).2 _).raw = _
    rw [parseBody_raw, hsplit]

/-- Witness for the amended C2 at the input `"abc"`. -/
theorem no_blank_line_all_body_witness :
    (MessageContent.parse [97, 98, 99]).body.raw =
      get_raw [97, 98, 99] [find_lines [97, 98, 99]] :=
  (no_blank_line_all_body [97, 98, 99] (by decide)).2.2

/-! ## Contiguity of the scanned lines and the raw-view invariant (claim C3) -/

/-- The offset just past the last line of `ls`, for a line list that starts
at offset `s` (`s` itself when `ls` is empty). -/
def endOf (s : Nat) : List MLine → Nat
  | [] => s
  | l :: ls => endOf l.nextStart ls

/-- The lines of `ls` are contiguous starting at offset `s`: each line starts
where the previous one ended and does not run backwards. -/
def ChainedFrom : Nat → List MLine → Prop
  | _, [] => True
  | s, l :: rest => l.start = s ∧ s ≤ l.nextStart ∧ ChainedFrom l.nextStart rest

theorem endOf_nil (s : Nat) : endOf s [] = s := rfl

theorem endOf_cons (s : Nat) (l : MLine) (ls : List MLine) :
    endOf s (l :: ls) = endOf l.nextStart ls := rfl

theorem lastNext_endOf (l : MLine) (ls : List MLine) :
    lastNext l ls = endOf l.nextStart ls := by
  induction ls generalizing l with
  | nil => rfl
  | cons x xs ih => exact ih x

theorem endOf_append (s : Nat) (a b : List MLine) :
    endOf s (a ++ b) = endOf (endOf s a) b := by
  induction a generalizing s with
  | nil => rw [List.nil_append, endOf_nil]
  | cons l a ih => rw [List.cons_append, endOf_cons, endOf_cons, ih]

theorem chained_append {s : Nat} {a b : List MLine}
    (h : ChainedFrom s (a ++ b)) :
    ChainedFrom s a ∧ ChainedFrom (endOf s a) b := by
  induction a generalizing s with
  | nil => exact ⟨trivial, h⟩
  | cons l a ih =>
      obtain ⟨h1, h2, h3⟩ := h
      obtain ⟨ih1, ih2⟩ := ih h3
      rw [endOf_cons]
      exact ⟨⟨h1, h2, ih1⟩, ih2⟩

theorem chained_le {s : Nat} {ls : List MLine} (h : ChainedFrom s ls) :
    s ≤ endOf s ls := by
  induction ls generalizing s with
  | nil => exact Nat.le_refl s
  | cons l rest ih =>
      obtain ⟨_, h2, h3⟩ := h
      rw [endOf_cons]
      exact Nat.le_trans h2 (ih h3)

theorem get_raw_chained (data : BData) {s : Nat} {ls : List MLine}
    (h : ChainedFrom s ls) :
    get_raw data [ls] = bslice data s (endOf s ls) := by
  cases ls with
  | nil => simp [get_raw, bslice, endOf]
  | cons l rest =>
      obtain ⟨h1, _, _⟩ := h
      show bslice data l.start (lastNext l (rest ++ [])) = _
      rw [List.append_nil, h1, lastNext_endOf]
      rfl

theorem bslice_append (data : BData) {a b c : Nat} (h1 : a ≤ b)
    (h2 : b ≤ c) : bslice data a c = bslice data a b ++ bslice data b c := by
  unfold bslice
  have hc : c - a = (b - a) + (c - b) := by omega
  have hd : (data.drop a).drop (b - a) = data.drop b := by
    rw [List.drop_drop]
    congr 1
    omega
  rw [hc, List.take_add, hd]

theorem find_lines_go_chained (data : BData) :
    ∀ fuel start, start ≤ data.length → data.length - start < fuel →
      ChainedFrom start (find_lines_go data start fuel) := by
  intro fuel
  induction fuel with
  | zero => intro start h1 h2; omega
  | succ f ih =>
      intro start h1 h2
      rw [find_lines_go]
      rcases hf : findByteFrom data 10 start with _ | idx
      · exact ⟨rfl, h1, trivial⟩
      · have hb := findByteFrom_bounds hf
        refine ⟨rfl, ?_, ih (idx + 1) (by omega) (by omega)⟩
        show start ≤ idx + 1
        omega

theorem find_lines_chained (data : BData) :
    ChainedFrom 0 (find_lines data) :=
  find_lines_go_chained data (data.length + 1) 0 (by omega) (by omega)

/-- C3 counterexample: for `"A: b\n\nxyz"` the header raw already ends with
the blank separator line and its LF, so concatenating header raw, a separate
blank separator line, and body raw adds an extra blank line and does not
reproduce the content raw. -/
theorem raw_concat_cex :
    (MessageContent.parse [65, 58, 32, 98, 10, 10, 120, 121, 122]).header.raw
        = [65, 58, 32, 98, 10, 10] ∧
    (MessageContent.parse [65, 58, 32, 98, 10, 10, 120, 121, 122]).body.raw
        = [120, 121, 122] ∧
    (MessageContent.parse [65, 58, 32, 98, 10, 10, 120, 121, 122]).raw
        = [65, 58, 32, 98, 10, 10, 120, 121, 122] ∧
    (MessageContent.parse [65, 58, 32, 98, 10, 10, 120, 121, 122]).raw ≠
      (MessageContent.parse [65, 58, 32, 98, 10, 10, 120, 121, 122]).header.raw
        ++ [10] ++
        (MessageContent.parse [65, 58, 32, 98, 10, 10, 120, 121, 122]).body.raw
    := by decide

/-- C3 (amended): for every `MessageContent` produced by `parse`, the content
raw equals the concatenation of the header raw and the body raw; the blank
separator line is already included at the end of the header raw. -/
theorem parse_raw_concat (data : BData) :
    (MessageContent.parse data).raw =
      (MessageContent.parse data).header.raw ++
        (MessageContent.parse data).body.raw := by
  rw [parse_as_succ, parseContent_succ]
  show get_raw data
      [(split_lines data (find_lines data)).1,
        (split_lines data (find_lines data)).2] =
    (MessageHeader.parseFrom data (split_lines data (find_lines data)).1).raw
      ++ (parseBody _ data (split_lines data (find_lines data)).2 _).raw
  rw [parseFrom_raw, parseBody_raw]
  have hsplit := split_lines_append data (find_lines data)
  have hchain : ChainedFrom 0
      ((split_lines data (find_lines data)).1 ++
        (split_lines data (find_lines data)).2) := by
    rw [hsplit]; exact find_lines_chained data
  obtain ⟨c1, c2⟩ := chained_append hchain
  have hflat : ([(split_lines data (find_lines data)).1,
      (split_lines data (find_lines data)).2] :
        List (List MLine)).flatten =
      [(split_lines data (find_lines data)).1 ++
        (split_lines data (find_lines data)).2].flatten := by simp
  rw [get_raw_congr data hflat, get_raw_chained data hchain,
    get_raw_chained data c1, get_raw_chained data c2, endOf_append]
  exact bslice_append data (chained_le c1) (chained_le c2)

/-! ## Body variant dispatch (claim C4) -/

/-- C4: the body variant is selected by the Content-Type header — an absent
or unparseable header defaults to `text/plain`, which gives a singlepart
body; `multipart` with a valid boundary gives a multipart body whose children
are the recursively parsed part groups; `message/rfc822` gives a body whose
nested sequence is exactly the whole body parsed recursively as one
`MessageContent`; every other case, including multipart without a valid
boundary, gives a singlepart body (whose `has_nested` is false and whose
nested sequence is empty). -/
theorem body_variant_dispatch (fuel : Nat) (data : BData)
    (lines : List MLine) :
    (parseBody (fuel + 1) data lines none =
      .singlepart (get_raw data [lines]) lines.length default_type) ∧
    default_type = ⟨"text", "plain", []⟩ ∧
    (∀ ct boundary, ct.maintype = "multipart" →
      get_boundary ct = some boundary →
      parseBody (fuel + 2) data lines (some ct) =
        .multipart (get_raw data [lines]) lines.length ct
          ((find_parts data lines boundary).map
            (fun p => parseContent fuel data p))) ∧
    (∀ ct, ct.maintype = "message" → ct.subtype = "rfc822" →
      parseBody (fuel + 2) data lines (some ct) =
        .rfc822 (parseContent fuel data lines).raw
          (parseContent fuel data lines).lines ct
          (parseContent fuel data lines) ∧
      (parseBody (fuel + 2) data lines (some ct)).nested =
        [parseContent fuel data lines]) ∧
    (∀ ct, ct.maintype = "multipart" → get_boundary ct = none →
      parseBody (fuel + 1) data lines (some ct) =
        .singlepart (get_raw data [lines]) lines.length ct) ∧
    (∀ ct, ct.maintype ≠ "multipart" →
      ¬(ct.maintype = "message" ∧ ct.subtype = "rfc822") →
      parseBody (fuel + 1) data lines (some ct) =
        .singlepart (get_raw data [lines]) lines.length ct) ∧
    (∀ r n ct, (MessageBody.singlepart r n ct).has_nested = false ∧
      (MessageBody.singlepart r n ct).nested = []) := by
  refine ⟨?_, rfl, ?_, ?_, ?_, ?_, fun r n ct => ⟨rfl, rfl⟩⟩
  · rw [parseBody]
    simp [default_type, get_boundary]
  · intro ct boundary hm hb
    rw [parseBody]
    simp only [Option.getD_some, hm, if_pos, hb]
    rfl
  · intro ct hm hs
    rw [parseBody]
    simp only [Option.getD_some, hm, hs]
    norm_num
    exact ⟨rfl, rfl⟩
  · intro ct hm hb
    rw [parseBody]
    simp only [Option.getD_some, hm, if_pos, hb]
  · intro ct hm hms
    rw [parseBody]
    simp only [Option.getD_some, if_neg hm, if_neg hms]

/-- Witness for C4: an empty body with a concrete `multipart/mixed` content
type with boundary `X` parses as a multipart body, and an absent content type
gives a `text/plain` singlepart. -/
theorem body_variant_dispatch_witness :
    parseBody (0 + 2) [] []
        (some ⟨"multipart", "mixed", [("boundary", "X")]⟩) =
      .multipart (get_raw [] [[]]) ([] : List MLine).length
        ⟨"multipart", "mixed", [("boundary", "X")]⟩
        ((find_parts [] [] [88]).map (fun p => parseContent 0 [] p)) ∧
    parseBody (0 + 1) [] [] none =
      .singlepart (get_raw [] [[]]) ([] : List MLine).length default_type :=
  ⟨(body_variant_dispatch 0 [] []).2.2.1
      ⟨"multipart", "mixed", [("boundary", "X")]⟩ [88] rfl (by decide),
    (body_variant_dispatch 0 [] []).1⟩

/-! ## The multipart boundary scan (claim C5) -/

theorem appendToLast_concat (gs : List (List MLine)) (g : List MLine)
    (l : MLine) : appendToLast (gs ++ [g]) l = gs ++ [g ++ [l]] := by
  induction gs with
  | nil => rfl
  | cons g0 gs ih =>
      cases gs with
      | nil => rfl
      | cons g1 gs' =>
          show g0 :: appendToLast ((g1 :: gs') ++ [g]) l = _
          rw [ih]
          rfl

theorem modifyHead_modifyHead (f g : List MLine → List MLine)
    (l : List (List MLine)) :
    (l.modifyHead g).modifyHead f = l.modifyHead (fun x => f (g x)) := by
  cases l <;> rfl

theorem tail_modifyHead (f : List MLine → List MLine)
    (l : List (List MLine)) : (l.modifyHead f).tail = l.tail := by
  cases l <;> rfl

theorem modifyHead_append_nil (l : List (List MLine)) :
    l.modifyHead (fun t => [] ++ t) = l := by
  cases l <;> rfl

theorem modifyHead_id (l : List (List MLine)) :
    l.modifyHead (fun t => t) = l := by
  cases l <;> rfl

theorem find_parts_go_concat (data boundary : BData) :
    ∀ (ls : List MLine) (gs : List (List MLine)) (g : List MLine),
      find_parts_go data boundary ls (gs ++ [g]) =
        gs ++ ((ls.takeWhile
            (fun l => !isStopLine data boundary l)).splitOnP
          (fun l => isPartLine data boundary l)).modifyHead
            (fun t => g ++ t) := by
  intro ls
  induction ls with
  | nil =>
      intro gs g
      simp [find_parts_go, List.splitOnP_nil]
  | cons l rest ih =>
      intro gs g
      rcases hs : isStopLine data boundary l with _ | _
      · rcases hp : isPartLine data boundary l with _ | _
        · rw [find_parts_go, if_neg (by simp [hs]), if_neg (by simp [hp]),
            appendToLast_concat, ih gs (g ++ [l]), List.takeWhile_cons, hs]
          simp only [Bool.not_false, if_true, List.splitOnP_cons, hp,
            Bool.false_eq_true, if_false, modifyHead_modifyHead]
          have hfun : (fun x : List MLine => g ++ l :: x) =
              (fun x : List MLine => (g ++ [l]) ++ x) := by
            funext x
            simp
          rw [hfun]
        · rw [find_parts_go, if_neg (by simp [hs]), if_pos (by simp [hp])]
          show find_parts_go data boundary rest ((gs ++ [g]) ++ [[]]) = _
          rw [ih (gs ++ [g]) [], List.takeWhile_cons, hs]
          simp [hp, List.splitOnP_cons, modifyHead_append_nil, modifyHead_id]
      · rw [find_parts_go, if_pos (by simp [hs]), List.takeWhile_cons, hs]
        simp [List.splitOnP_nil]

theorem find_parts_eq_splitOnP (data boundary : BData) :
    ∀ ls : List MLine,
      find_parts data ls boundary =
        ((ls.takeWhile (fun l => !isStopLine data boundary l)).splitOnP
          (fun l => isPartLine data boundary l)).tail := by
  intro ls
  rw [find_parts]
  induction ls with
  | nil => simp [find_parts_go, List.splitOnP_nil]
  | cons l rest ih =>
      rcases hs : isStopLine data boundary l with _ | _
      · rcases hp : isPartLine data boundary l with _ | _
        · rw [find_parts_go, if_neg (by simp [hs]), if_neg (by simp [hp])]
          show find_parts_go data boundary rest [] = _
          rw [ih, List.takeWhile_cons, hs]
          simp only [Bool.not_false, if_true, List.splitOnP_cons, hp,
            Bool.false_eq_true, if_false, tail_modifyHead]
        · rw [find_parts_go, if_neg (by simp [hs]), if_pos (by simp [hp])]
          show find_parts_go data boundary rest ([] ++ [[]]) = _
          rw [find_parts_go_concat data boundary rest [] [],
            List.takeWhile_cons, hs]
          simp [hp, List.splitOnP_cons, modifyHead_append_nil, modifyHead_id]
      · rw [find_parts_go, if_pos (by simp [hs]), List.takeWhile_cons, hs]
        simp [List.splitOnP_nil]

theorem takeWhile_all_of (p : MLine → Bool) (ls : List MLine)
    (h : ∀ x ∈ ls, p x = true) : ls.takeWhile p = ls := by
  induction ls with
  | nil => rfl
  | cons l rest ih =>
      rw [List.takeWhile_cons, h l (by simp)]
      simp only [if_true]
      rw [ih (fun x hx => h x (by simp [hx]))]

/-- C5: for a multipart body with boundary `B`, the part scan over the body
lines opens a new part at each line byte-equal to `--B`, stops at the first
line byte-equal to `--B--`, discards the lines before the first `--B`
(preamble) and the lines from the terminating `--B--` on (epilogue) — this is
exactly splitting the prefix before the first stop marker on the part-marker
lines and dropping the group before the first marker — and the lines between
markers are recursively parsed as the child contents; when neither marker
appears the result is a multipart body with no children. -/
theorem multipart_part_scan (fuel : Nat) (data : BData) (lines : List MLine)
    (ct : ContentTypeHeader) (boundary : BData) :
    parseMultipartBody (fuel + 1) data lines ct boundary =
      .multipart (get_raw data [lines]) lines.length ct
        ((find_parts data lines boundary).map
          (fun p => parseContent fuel data p)) ∧
    find_parts data lines boundary =
      ((lines.takeWhile (fun l => !isStopLine data boundary l)).splitOnP
        (fun l => isPartLine data boundary l)).tail ∧
    ((∀ l ∈ lines, isStopLine data boundary l = false ∧
        isPartLine data boundary l = false) →
      find_parts data lines boundary = [] ∧
      (parseMultipartBody (fuel + 1) data lines ct boundary).has_nested =
        true ∧
      (parseMultipartBody (fuel + 1) data lines ct boundary).nested = []) := by
  refine ⟨rfl, find_parts_eq_splitOnP data boundary lines, ?_⟩
  intro h
  have hz : find_parts data lines boundary = [] := by
    rw [find_parts_eq_splitOnP data boundary lines,
      takeWhile_all_of _ _ (fun x hx => by simp [(h x hx).1]),
      List.splitOnP_eq_single _ _ (fun x hx => by simp [(h x hx).2])]
    rfl
  refine ⟨hz, rfl, ?_⟩
  show ((find_parts data lines boundary).map
    (fun p => parseContent fuel data p)) = []
  rw [hz]
  rfl

/-- Witness for C5: a two-part body delimited by boundary `X`, with a
preamble line and an epilogue line, yields exactly the two groups between the
markers; a marker-free line list yields no children. -/
theorem multipart_part_scan_witness :
    find_parts [112, 10, 45, 45, 88, 10, 97, 10, 45, 45, 88, 10, 98, 10,
        45, 45, 88, 45, 45, 10, 122]
      (find_lines [112, 10, 45, 45, 88, 10, 97, 10, 45, 45, 88, 10, 98, 10,
        45, 45, 88, 45, 45, 10, 122]) [88] =
      [[⟨6, 7, 8⟩], [⟨12, 13, 14⟩]] ∧
    find_parts [97] (find_lines [97]) [88] = [] ∧
    (parseMultipartBody (0 + 1) [97] (find_lines [97]) default_type
      [88]).nested = [] := by
  refine ⟨by decide, ?_, ?_⟩
  · exact ((multipart_part_scan 0 [97] (find_lines [97]) default_type
      [88]).2.2 (by decide)).1
  · exact ((multipart_part_scan 0 [97] (find_lines [97]) default_type
      [88]).2.2 (by decide)).2.2

/-! ## Pre-order traversal (claim C7) -/

theorem walkList_eq_flatten (cs : List MessageContent) :
    walkList cs = (cs.map walk).flatten := by
  induction cs with
  | nil => rfl
  | cons c cs ih => rw [walkList, ih]; rfl

theorem walkBody_eq_flatten (b : MessageBody) :
    walkBody b = (b.nested.map walk).flatten := by
  cases b with
  | singlepart r n ct => rfl
  | multipart r n ct ps =>
      rw [walkBody, MessageBody.nested, walkList_eq_flatten]
  | rfc822 r n ct s =>
      rw [walkBody, MessageBody.nested]
      simp

mutual
theorem walk_length_eq : ∀ c : MessageContent,
    (walk c).length = nodeCount c
  | .mk r n h b => by
      rw [walk, nodeCount, List.length_cons, walkBody_length_eq b]
      omega

theorem walkBody_length_eq : ∀ b : MessageBody,
    (walkBody b).length = nodeCountBody b
  | .singlepart r n ct => rfl
  | .multipart r n ct ps => by
      rw [walkBody, nodeCountBody, walkList_length_eq ps]
  | .rfc822 r n ct s => by
      rw [walkBody, nodeCountBody, walk_length_eq s]

theorem walkList_length_eq : ∀ cs : List MessageContent,
    (walkList cs).length = nodeCountList cs
  | [] => rfl
  | c :: cs => by
      rw [walkList, nodeCountList, List.length_append, walk_length_eq c,
        walkList_length_eq cs]
end

theorem walk_leaf {p : MessageContent} (h : p.body.has_nested = false) :
    walk p = [p] := by
  cases p with
  | mk r n hd b =>
      cases b with
      | singlepart => rfl
      | multipart => simp [MessageContent.body, MessageBody.has_nested] at h
      | rfc822 => simp [MessageContent.body, MessageBody.has_nested] at h

/-- C7 (amended): `walk` yields the content itself first and then,
recursively, each nested part's walk in order — a pre-order traversal whose
length is the node count of the tree, so every node is visited exactly once;
a body with `has_nested` false yields only the content itself; and a
multipart with two parts neither of which has nested sub-parts yields exactly
three entries. -/
theorem walk_preorder (c : MessageContent) :
    walk c = c :: (c.body.nested.map walk).flatten ∧
    (walk c).length = nodeCount c ∧
    (walk c).head? = some c ∧
    (c.body.has_nested = false → walk c = [c]) ∧
    (∀ r n h r2 n2 ct p1 p2,
      p1.body.has_nested = false → p2.body.has_nested = false →
      (walk (.mk r n h (.multipart r2 n2 ct [p1, p2]))).length = 3) := by
  refine ⟨?_, walk_length_eq c, ?_, fun h => walk_leaf h, ?_⟩
  · cases c with
    | mk r n hd b => rw [walk, walkBody_eq_flatten]; rfl
  · cases c with
    | mk r n hd b => rw [walk]; rfl
  · intro r n h r2 n2 ct p1 p2 h1 h2
    rw [walk, walkBody, walkList, walkList, walkList, walk_leaf h1,
      walk_leaf h2]
    rfl

/-- Witness for C7 at a concrete two-leaf multipart content. -/
theorem walk_preorder_witness :
    (walk (.mk [] 0 ⟨[], 0, [], []⟩ (.multipart [] 0 default_type
      [.mk [] 1 ⟨[], 0, [], []⟩ (.singlepart [] 1 default_type),
        .mk [] 2 ⟨[], 0, [], []⟩ (.singlepart [] 2 default_type)]))).length
      = 3 :=
  (walk_preorder (.mk [] 0 ⟨[], 0, [], []⟩ (.multipart [] 0 default_type
      [.mk [] 1 ⟨[], 0, [], []⟩ (.singlepart [] 1 default_type),
        .mk [] 2 ⟨[], 0, [], []⟩
          (.singlepart [] 2 default_type)]))).2.2.2.2
    [] 0 ⟨[], 0, [], []⟩ [] 0 default_type
    (.mk [] 1 ⟨[], 0, [], []⟩ (.singlepart [] 1 default_type))
    (.mk [] 2 ⟨[], 0, [], []⟩ (.singlepart [] 2 default_type)) rfl rfl

/-- C7 counterexample: a multipart with two parts whose first part is itself
a multipart with one sub-part — `walk` yields four entries, not three. -/
theorem walk_two_parts_cex :
    (walk (.mk [] 0 ⟨[], 0, [], []⟩ (.multipart [] 0 default_type
      [.mk [] 0 ⟨[], 0, [], []⟩ (.multipart [] 0 default_type
        [.mk [] 0 ⟨[], 0, [], []⟩ (.singlepart [] 0 default_type)]),
        .mk [] 0 ⟨[], 0, [], []⟩
          (.singlepart [] 0 default_type)]))).length = 4 ∧
    (MessageBody.multipart [] 0 default_type
      [.mk [] 0 ⟨[], 0, [], []⟩ (.multipart [] 0 default_type
        [.mk [] 0 ⟨[], 0, [], []⟩ (.singlepart [] 0 default_type)]),
        .mk [] 0 ⟨[], 0, [], []⟩
          (.singlepart [] 0 default_type)]).nested.length = 2 :=
  ⟨rfl, rfl⟩

/-! ## Header folding and the parsed index (claim C6) -/

/-- The name a folded group contributes: the bytes before the first colon of
its first line, stripped and lowercased; `none` when the group is empty or
its first line has no colon (the group is discarded). -/
def groupName (data : BData) : List MLine → Option BData
  | [] => none
  | first :: _ =>
      match findColon data first.start first.stop with
      | none => none
      | some colon => some (pyLower (pyStrip (bslice data first.start colon)))

/-- The folded-list entry contributed by a group: its name and its raw
bytes. -/
def groupEntry (data : BData) (g : List MLine) : Option (BData × BData) :=
  (groupName data g).map (fun name => (name, get_raw data [g]))

/-- The value group stored in the header index: the group's line views. -/
def groupValue (data : BData) (g : List MLine) : List BData :=
  g.map (fun l => bslice data l.start l.stop)

theorem appendToLast_flatten :
    ∀ (acc : List (List MLine)) (l : MLine), acc ≠ [] →
      (appendToLast acc l).flatten = acc.flatten ++ [l] := by
  intro acc
  induction acc with
  | nil => intro l h; exact absurd rfl h
  | cons g gs ih =>
      intro l _
      cases gs with
      | nil => simp [appendToLast]
      | cons g1 gs' =>
          show (g :: appendToLast (g1 :: gs') l).flatten = _
          rw [List.flatten_cons, ih l (by simp), List.flatten_cons]
          simp

theorem appendToLast_ne_nil (acc : List (List MLine)) (l : MLine)
    (h : acc ≠ []) : appendToLast acc l ≠ [] := by
  cases acc with
  | nil => exact absurd rfl h
  | cons g gs => cases gs <;> simp [appendToLast]

theorem find_folds_go_flatten_acc (data : BData) :
    ∀ (ls : List MLine) (acc : List (List MLine)), acc ≠ [] →
      (find_folds_go data ls acc).flatten = acc.flatten ++ ls := by
  intro ls
  induction ls with
  | nil => intro acc h; simp [find_folds_go]
  | cons l rest ih =>
      intro acc h
      by_cases hw : ws_start data l
      · rw [find_folds_go, if_pos hw, ih _ (appendToLast_ne_nil acc l h),
          appendToLast_flatten acc l h]
        simp
      · rw [find_folds_go, if_neg hw, ih _ (by simp)]
        simp

theorem find_folds_go_flatten (data : BData) :
    ∀ ls : List MLine,
      (find_folds_go data ls []).flatten = ls.dropWhile (ws_start data) := by
  intro ls
  induction ls with
  | nil => rfl
  | cons l rest ih =>
      by_cases hw : ws_start data l
      · rw [find_folds_go, if_pos hw]
        show (find_folds_go data rest []).flatten = _
        rw [ih, List.dropWhile_cons]
        simp [hw]
      · rw [find_folds_go, if_neg hw,
          find_folds_go_flatten_acc data rest ([] ++ [[l]]) (by simp),
          List.dropWhile_cons]
        simp [hw]

theorem find_folds_flatten (data : BData) (lines : List MLine) :
    (find_folds data lines).flatten =
      (lines.take (lines.length - 1)).dropWhile (ws_start data) := by
  cases lines with
  | nil => rfl
  | cons l ls => exact find_folds_go_flatten data _

theorem appendToLast_good (data : BData) (l : MLine)
    (hw : ws_start data l = true) :
    ∀ acc : List (List MLine),
      (∀ g ∈ acc, ∃ h t, g = h :: t ∧ ws_start data h = false ∧
        ∀ x ∈ t, ws_start data x = true) →
      ∀ g ∈ appendToLast acc l, ∃ h t, g = h :: t ∧
        ws_start data h = false ∧ ∀ x ∈ t, ws_start data x = true := by
  intro acc
  induction acc with
  | nil => intro _ g hg; simp [appendToLast] at hg
  | cons g0 gs ih =>
      intro hacc g hg
      cases gs with
      | nil =>
          simp only [appendToLast, List.mem_singleton] at hg
          obtain ⟨h, t, hg0, hh, ht⟩ := hacc g0 (by simp)
          subst hg
          refine ⟨h, t ++ [l], by simp [hg0], hh, ?_⟩
          intro x hx
          rcases List.mem_append.mp hx with hx | hx
          · exact ht x hx
          · rw [List.mem_singleton.mp hx]; exact hw
      | cons g1 gs' =>
          rw [show appendToLast (g0 :: g1 :: gs') l =
            g0 :: appendToLast (g1 :: gs') l from rfl] at hg
          rcases List.mem_cons.mp hg with hg | hg
          · exact hg ▸ hacc g0 (by simp)
          · exact ih (fun g' hg' => hacc g' (by simp [hg'])) g hg

theorem find_folds_go_good (data : BData) :
    ∀ (ls : List MLine) (acc : List (List MLine)),
      (∀ g ∈ acc, ∃ h t, g = h :: t ∧ ws_start data h = false ∧
        ∀ x ∈ t, ws_start data x = true) →
      ∀ g ∈ find_folds_go data ls acc, ∃ h t, g = h :: t ∧
        ws_start data h = false ∧ ∀ x ∈ t, ws_start data x = true := by
  intro ls
  induction ls with
  | nil => intro acc hacc; exact hacc
  | cons l rest ih =>
      intro acc hacc
      by_cases hw : ws_start data l
      · rw [find_folds_go, if_pos hw]
        exact ih _ (appendToLast_good data l hw acc hacc)
      · rw [find_folds_go, if_neg hw]
        refine ih _ ?_
        intro g hg
        rcases List.mem_append.mp hg with hg | hg
        · exact hacc g hg
        · refine ⟨l, [], List.mem_singleton.mp hg, ?_, by simp⟩
          simpa using hw

theorem find_folds_good (data : BData) (lines : List MLine) :
    ∀ g ∈ find_folds data lines, ∃ h t, g = h :: t ∧
      ws_start data h = false ∧ ∀ x ∈ t, ws_start data x = true := by
  cases lines with
  | nil => intro g hg; simp [find_folds] at hg
  | cons l ls => exact find_folds_go_good data _ [] (by simp)

theorem parse_headers_go_folded (data : BData) :
    ∀ (folds : List (List MLine)) (folded : FoldedHeaders)
      (headers : HeadersIdx),
      (parse_headers_go data folds folded headers).1 =
        folded ++ folds.filterMap (groupEntry data) := by
  intro folds
  induction folds with
  | nil => intro folded headers; simp [parse_headers_go]
  | cons g rest ih =>
      intro folded headers
      cases g with
      | nil =>
          rw [parse_headers_go, ih]
          simp [groupEntry, groupName]
      | cons first gtail =>
          rcases hc : findColon data first.start first.stop with _ | colon
          · rw [parse_headers_go]
            simp only [hc]
            rw [ih]
            simp [groupEntry, groupName, hc]
          · rw [parse_headers_go]
            simp only [hc]
            rw [ih]
            simp [groupEntry, groupName, hc]

theorem addHeaderValue_lookup (name m : BData) (v : List BData) :
    ∀ hs : HeadersIdx,
      List.lookup m (addHeaderValue hs name v) =
        if m = name then some (((List.lookup name hs).getD []) ++ [v])
        else List.lookup m hs := by
  intro hs
  induction hs with
  | nil =>
      by_cases hm : m = name
      · have h1 : (m == name) = true := by simp [hm]
        simp [addHeaderValue, List.lookup, hm, h1]
      · have h1 : (m == name) = false := by simp [hm]
        simp [addHeaderValue, List.lookup, hm, h1]
  | cons kv rest ih =>
      rcases kv with ⟨k, vs⟩
      by_cases hk : k = name
      · subst hk
        rw [show addHeaderValue ((k, vs) :: rest) k v =
            (k, vs ++ [v]) :: rest by simp [addHeaderValue]]
        by_cases hm : m = k
        · have h1 : (m == k) = true := by simp [hm]
          simp [List.lookup, hm, h1]
        · have h1 : (m == k) = false := by simp [hm]
          simp [List.lookup, hm, h1]
      · rw [show addHeaderValue ((k, vs) :: rest) name v =
            (k, vs) :: addHeaderValue rest name v by
              simp [addHeaderValue, hk]]
        by_cases hm : m = k
        · have h1 : (m == k) = true := by simp [hm]
          have h2 : ¬m = name := by rw [hm]; exact hk
          simp [List.lookup, h1, h2]
        · have h1 : (m == k) = false := by simp [hm]
          have h3 : (name == k) = false := by
            have : ¬name = k := fun h => hk h.symm
            simp [this]
          by_cases hmn : m = name
          · rw [hmn] at ih
            simp [List.lookup, h1, h3, hmn, ih]
          · simp [List.lookup, h1, h3, hmn, ih]

theorem parse_headers_go_lookup (data : BData) (name : BData) :
    ∀ (folds : List (List MLine)) (folded : FoldedHeaders)
      (headers : HeadersIdx),
      List.lookup name (parse_headers_go data folds folded headers).2 =
        (if ((folds.filter (fun g => groupName data g == some name)).map
              (groupValue data)) = []
          then List.lookup name headers
          else some (((List.lookup name headers).getD []) ++
            ((folds.filter (fun g => groupName data g == some name)).map
              (groupValue data)))) := by
  intro folds
  induction folds with
  | nil => intro folded headers; simp [parse_headers_go]
  | cons g rest ih =>
      intro folded headers
      cases g with
      | nil =>
          rw [parse_headers_go, ih]
          simp [groupName]
      | cons first gtail =>
          rcases hc : findColon data first.start first.stop with _ | colon
          · rw [parse_headers_go]
            simp only [hc]
            rw [ih]
            have hn : groupName data (first :: gtail) = none := by
              simp [groupName, hc]
            simp [hn]
          · rw [parse_headers_go]
            simp only [hc]
            rw [ih]
            have hn : groupName data (first :: gtail) =
                some (pyLower (pyStrip (bslice data first.start colon))) := by
              simp [groupName, hc]
            by_cases hname :
                pyLower (pyStrip (bslice data first.start colon)) = name
            · have hkeep : (groupName data (first :: gtail) ==
                  some name) = true := by
                simp [hn, hname]
              rw [hname,
                addHeaderValue_lookup name name
                  ((first :: gtail).map
                    (fun l => bslice data l.start l.stop)) headers]
              simp only [if_pos (rfl : name = name)]
              simp only [List.filter_cons, hkeep, if_true]
              by_cases hrest : ((rest.filter
                  (fun g => groupName data g == some name)).map
                    (groupValue data)) = []
              · simp [hrest, groupValue]
              · simp [hrest, groupValue, List.append_assoc]
            · have hkeep : (groupName data (first :: gtail) ==
                  some name) = false := by
                simp [hn, hname]
              rw [addHeaderValue_lookup
                  (pyLower (pyStrip (bslice data first.start colon))) name
                  ((first :: gtail).map
                    (fun l => bslice data l.start l.stop)) headers]
              rw [if_neg (fun h : name =
                  pyLower (pyStrip (bslice data first.start colon)) =>
                hname h.symm)]
              simp only [List.filter_cons, hkeep, Bool.false_eq_true,
                if_false]

/-- C6: header parsing groups the scanned lines (all lines of the header
region but the final one) into folded logical headers: the groups are
contiguous and in source order — their concatenation is the scanned lines
once any leading orphan continuation lines are dropped — and each group is a
non-whitespace-starting line followed by its whitespace-starting continuation
lines; a group whose first line has no colon is discarded; each kept group
contributes the pair (name before the colon stripped and lowercased, raw
group bytes) to the folded list in source order with duplicates preserved;
and the parsed index maps each lowercased name to the sequence of its value
groups. -/
theorem header_fold_parse (data : BData) (lines : List MLine) :
    (find_folds data lines).flatten =
      (lines.take (lines.length - 1)).dropWhile (ws_start data) ∧
    (∀ g ∈ find_folds data lines, ∃ h t, g = h :: t ∧
      ws_start data h = false ∧ ∀ x ∈ t, ws_start data x = true) ∧
    (MessageHeader.parseFrom data lines).folded =
      (find_folds data lines).filterMap (groupEntry data) ∧
    (∀ name, List.lookup name (MessageHeader.parseFrom data lines).parsed =
      (if (((find_folds data lines).filter
            (fun g => groupName data g == some name)).map
              (groupValue data)) = []
        then none
        else some (((find_folds data lines).filter
            (fun g => groupName data g == some name)).map
              (groupValue data)))) := by
  refine ⟨find_folds_flatten data lines, find_folds_good data lines, ?_, ?_⟩
  · show (parse_headers data (find_folds data lines)).1 = _
    rw [parse_headers, parse_headers_go_folded]
    rfl
  · intro name
    show List.lookup name
      (parse_headers data (find_folds data lines)).2 = _
    rw [parse_headers, parse_headers_go_lookup]
    simp [List.lookup]

/-- Witness for C6 at the header region of
`"A: x\n B\nnocolon\nA:y\n\nz"`: two kept groups named `a` (the first with
its folded continuation line), one discarded group, and an index mapping `a`
to both value groups. -/
theorem header_fold_parse_witness :
    List.lookup [97] (MessageHeader.parseFrom
        [65, 58, 32, 120, 10, 32, 66, 10, 110, 111, 99, 111, 108, 111,
          110, 10, 65, 58, 121, 10, 10, 122]
        (split_lines
          [65, 58, 32, 120, 10, 32, 66, 10, 110, 111, 99, 111, 108, 111,
            110, 10, 65, 58, 121, 10, 10, 122]
          (find_lines
            [65, 58, 32, 120, 10, 32, 66, 10, 110, 111, 99, 111, 108, 111,
              110, 10, 65, 58, 121, 10, 10, 122])).1).parsed =
      some [[[65, 58, 32, 120], [32, 66]], [[65, 58, 121]]] := by
  rw [(header_fold_parse
    [65, 58, 32, 120, 10, 32, 66, 10, 110, 111, 99, 111, 108, 111,
      110, 10, 65, 58, 121, 10, 10, 122]
    (split_lines
      [65, 58, 32, 120, 10, 32, 66, 10, 110, 111, 99, 111, 108, 111,
        110, 10, 65, 58, 121, 10, 10, 122]
      (find_lines
        [65, 58, 32, 120, 10, 32, 66, 10, 110, 111, 99, 111, 108, 111,
          110, 10, 65, 58, 121, 10, 10, 122])).1).2.2.2 [97]]
  decide

/-! ## The demo mailbox loader (claim C8) -/

/-- `Option`-valued map: load every file, failing when any file fails. -/
def mapOpt (f : DemoFile → Option LoadedMessage) :
    List DemoFile → Option (List LoadedMessage)
  | [] => some []
  | f0 :: fs =>
      match f f0 with
      | none => none
      | some m => (mapOpt f fs).map (fun ms => m :: ms)

/-- C8: the demo loader reads each file's first line as a space-separated
flag list, its second line as a numeric Unix epoch converted to a UTC
datetime, and the remaining bytes as the message data; a `\Recent` token is
removed from the flag set and passed instead as the `recent` argument of the
mailbox add; a file named `.readonly` sets the mailbox readonly bit, any
other file whose name begins with a dot is skipped entirely, and the loaded
messages are exactly those of the non-dot files, in order. -/
theorem demo_loader_spec (files : List DemoFile) (mbx : DemoMailbox) :
    loadDemoMailbox_go files mbx =
      ((mapOpt loadDemoFile
          (files.filter (fun f => !startsWithDot f.name))).map
        (fun msgs =>
          ⟨mbx.readonly || files.any (fun f => f.name == ".readonly"),
            mbx.messages ++ msgs⟩)) ∧
    (∀ f m, loadDemoFile f = some m →
      (m.recent = true ↔
        Recent ∈ (pySplit (readline f.content).1).toFinset) ∧
      m.flags = (pySplit (readline f.content).1).toFinset.erase Recent ∧
      Recent ∉ m.flags ∧
      m.msgData = (readline (readline f.content).2).2 ∧
      ∃ ts : Int × Nat,
        parseEpoch (readline (readline f.content).2).1 = some ts ∧
        m.internalDate = ⟨ts.1, ts.2⟩) := by
  constructor
  · induction files generalizing mbx with
    | nil =>
        rcases mbx with ⟨ro, msgs⟩
        simp [loadDemoMailbox_go, mapOpt]
    | cons f fs ih =>
        rcases mbx with ⟨ro, msgs⟩
        by_cases h1 : f.name = ".readonly"
        · rw [loadDemoMailbox_go, if_pos h1]
          show loadDemoMailbox_go fs ⟨true, msgs⟩ = _
          rw [ih ⟨true, msgs⟩]
          have hd : startsWithDot f.name = true := by
            rw [h1]; decide
          have ha : (f.name == ".readonly") = true := by simp [h1]
          simp [hd, ha]
        · by_cases h2 : startsWithDot f.name
          · rw [loadDemoMailbox_go, if_neg h1, if_pos h2, ih ⟨ro, msgs⟩]
            have ha : (f.name == ".readonly") = false := by simp [h1]
            simp [h2, ha]
          · rw [loadDemoMailbox_go, if_neg h1, if_neg h2]
            have ha : (f.name == ".readonly") = false := by simp [h1]
            have hkeep : (!startsWithDot f.name) = true := by simp [h2]
            rw [show List.filter (fun f => !startsWithDot f.name) (f :: fs)
                = f :: List.filter (fun f => !startsWithDot f.name) fs by
              simp [List.filter_cons, hkeep], mapOpt]
            rcases hf : loadDemoFile f with _ | m
            · rfl
            · show loadDemoMailbox_go fs ⟨ro, msgs ++ [m]⟩ = _
              rw [ih ⟨ro, msgs ++ [m]⟩]
              rcases hms : mapOpt loadDemoFile
                  (fs.filter (fun f => !startsWithDot f.name))
                with _ | msgs'
              · simp [hms]
              · simp [hms, ha]
  · intro f m h
    rw [loadDemoFile] at h
    rcases hts : parseEpoch (readline (readline f.content).2).1
      with _ | ts
    · rw [hts] at h
      cases h
    · rw [hts] at h
      by_cases hmem :
          Recent ∈ (pySplit (readline f.content).1).toFinset
      · simp only [hmem, if_true] at h
        injection h with h
        subst h
        refine ⟨by simp [hmem], rfl, Finset.not_mem_erase _ _, rfl,
          ts, rfl, rfl⟩
      · simp only [hmem, if_false] at h
        injection h with h
        subst h
        exact ⟨by simp [hmem], (Finset.erase_eq_of_not_mem hmem).symm,
          hmem, rfl, ts, rfl, rfl⟩

/-- Witness for C8 at a file holding `"\Recent \Seen\n5\nZ"`: the loaded
message drops `\Recent` from its flags and keeps the remaining byte `Z`. -/
theorem demo_loader_spec_witness :
    Recent ∉ (⟨{[92, 83, 101, 101, 110]}, ⟨5, 0⟩, [90], true⟩ :
      LoadedMessage).flags ∧
    (⟨{[92, 83, 101, 101, 110]}, ⟨5, 0⟩, [90], true⟩ :
        LoadedMessage).msgData =
      (readline (readline [92, 82, 101, 99, 101, 110, 116, 32, 92, 83,
        101, 101, 110, 10, 53, 10, 90]).2).2 := by
  have h := (demo_loader_spec [] ⟨false, []⟩).2
    ⟨"m1", [92, 82, 101, 99, 101, 110, 116, 32, 92, 83, 101, 101, 110,
      10, 53, 10, 90]⟩
    ⟨{[92, 83, 101, 101, 110]}, ⟨5, 0⟩, [90], true⟩ (by decide)
  exact ⟨h.2.2.1, h.2.2.2.1⟩

/-! ## Login (claim C9) -/

/-- C9 counterexample: with the demo password configured empty, a credentials
object whose authentication id is the demo user and whose secret check
accepts the empty expected password is still rejected — the `not password`
test fires before the secret check. -/
theorem login_empty_password_cex :
    login ⟨"demouser", fun s => s == ""⟩ ⟨"demouser", ""⟩ =
      .error .invalidAuth ∧
    (fun s : String => s == "") "" = true :=
  ⟨rfl, rfl⟩

/-- C9 (amended): `login` returns a session exactly when the authentication
id equals the configured demo user, the configured demo password is
non-empty, and the secret check against the demo password succeeds; in every
other case it fails with `InvalidAuth` and returns no session. -/
theorem login_auth_iff (credentials : Credentials) (config : DictConfig) :
    (credentials.authcid = config.demo_user ∧ config.demo_password ≠ "" ∧
        credentials.checkSecret config.demo_password = true →
      login credentials config = .ok ⟨credentials.authcid⟩) ∧
    (¬(credentials.authcid = config.demo_user ∧
        config.demo_password ≠ "" ∧
        credentials.checkSecret config.demo_password = true) →
      login credentials config = .error .invalidAuth) := by
  constructor
  · rintro ⟨h1, h2, h3⟩
    rw [login, get_password, if_pos h1]
    show (if config.demo_password = "" ∨
        ¬credentials.checkSecret config.demo_password then
          (Except.error LoginError.invalidAuth :
            Except LoginError DictSession)
        else Except.ok ⟨credentials.authcid⟩) =
      Except.ok ⟨credentials.authcid⟩
    rw [if_neg]
    push_neg
    exact ⟨h2, by simp [h3]⟩
  · intro h
    rw [login, get_password]
    by_cases h1 : credentials.authcid = config.demo_user
    · rw [if_pos h1]
      show (if config.demo_password = "" ∨
          ¬credentials.checkSecret config.demo_password then
            (Except.error LoginError.invalidAuth :
              Except LoginError DictSession)
          else Except.ok ⟨credentials.authcid⟩) =
        Except.error LoginError.invalidAuth
      have hcond : config.demo_password = "" ∨
          ¬credentials.checkSecret config.demo_password := by
        by_cases h2 : config.demo_password = ""
        · exact Or.inl h2
        · by_cases h3 :
              credentials.checkSecret config.demo_password = true
          · exact absurd ⟨h1, h2, h3⟩ h
          · exact Or.inr h3
      rw [if_pos hcond]
    · rw [if_neg h1]

/-- Witness for C9: the default demo credentials log in, a wrong user id is
rejected. -/
theorem login_auth_iff_witness :
    login ⟨"demouser", fun s => s == "demopass"⟩
        ⟨"demouser", "demopass"⟩ = .ok ⟨"demouser"⟩ ∧
    login ⟨"other", fun _ => true⟩ ⟨"demouser", "demopass"⟩ =
      .error .invalidAuth :=
  ⟨(login_auth_iff ⟨"demouser", fun s => s == "demopass"⟩
      ⟨"demouser", "demopass"⟩).1 ⟨rfl, by decide, by rfl⟩,
    (login_auth_iff ⟨"other", fun _ => true⟩
      ⟨"demouser", "demopass"⟩).2 (by decide)⟩

/-! ## The demo message clock (claim C10) -/

/-- C10: `fetch_internal_date` returns the clock reading at the moment of
the call (the wall clock is modelled as the explicit `now` argument): the
result equals the clock, is independent of the message's construction data,
and two calls on the same unchanged message at different clock readings
return different values. -/
theorem fetch_internal_date_clock (m m' : DemoMessage)
    (now t1 t2 : UTCDateTime) :
    fetch_internal_date m now = now ∧
    fetch_internal_date m now = fetch_internal_date m' now ∧
    (t1 ≠ t2 → fetch_internal_date m t1 ≠ fetch_internal_date m t2) :=
  ⟨rfl, rfl, fun h => h⟩

/-- Witness for C10 at a concrete message and two clock readings. -/
theorem fetch_internal_date_clock_witness :
    fetch_internal_date ⟨0, 1, [], []⟩ ⟨0, 0⟩ = ⟨0, 0⟩ ∧
    fetch_internal_date ⟨0, 1, [], []⟩ ⟨7, 0⟩ ≠
      fetch_internal_date ⟨0, 1, [], []⟩ ⟨8, 0⟩ :=
  ⟨(fetch_internal_date_clock ⟨0, 1, [], []⟩ ⟨0, 1, [], []⟩ ⟨0, 0⟩
      ⟨7, 0⟩ ⟨8, 0⟩).1,
    (fetch_internal_date_clock ⟨0, 1, [], []⟩ ⟨0, 1, [], []⟩ ⟨0, 0⟩
      ⟨7, 0⟩ ⟨8, 0⟩).2.2 (by decide)⟩

end Pymap
